import Mathlib

/-
Verification development for the gomodel library.

Embedded components:
* the SQL placeholder resolver of cmd/gomodel/sql_conv.go (Visitor.conv and
  its helpers modelTable, writeModel, writeField);
* the statement cache of cache.go (Cacher with StmtById, SetStmt,
  PrepareStmt, ExtendType, NewCacher);
* the field-mask value/pointer extraction emitted by the code-generation
  template (the generated Vals and Ptrs methods of each model).

Modelling conventions:
* Go byte iteration over the template string is modelled as iteration over
  the character list; the two coincide on ASCII templates.
* A Go map[uint]cacheItem is modelled as a function Nat -> Option CacheItem.
* A prepared statement handle (a sql.Stmt pointer) is modelled as an opaque
  Nat; the Preparer interface becomes a function returning Except.
* The global sqlPrinter diagnostic hook is modelled by collecting the list
  of (fromCache, sql) events an invocation emits.
* Methods that mutate the receiver return the new Cacher explicitly.
-/

/-- A schema table as consumed by the resolver: its SQL name and the
field-name to column-name association (Go: Table.Name, Table.Fields). -/
structure Table where
  Name : String
  Fields : List (String × String)
deriving DecidableEq

/-- Lookup of a field's column name, Go table.Fields.Get(field). -/
def Table.fieldsGet (t : Table) (f : String) : Option String :=
  (t.Fields.find? (fun p => p.1 == f)).map (fun p => p.2)

/-- The resolver's schema registry: model name to table (Go: Visitor.Models). -/
structure Visitor where
  Models : List (String × Table)
deriving DecidableEq

/-- Lookup of a model's table, Go v.Models[model] (nil when absent). -/
def Visitor.lookupModel (v : Visitor) (m : String) : Option Table :=
  (v.Models.find? (fun p => p.1 == m)).map (fun p => p.2)

/-- The scanner phases of Visitor.conv (Go: INIT, PARSING_MODEL,
PARSING_FIELD). -/
inductive ConvPhase
  | INIT
  | PARSING_MODEL
  | PARSING_FIELD
deriving DecidableEq

/-- The mutable scan state of Visitor.conv: phase, the three byte buffers
sqlbuf, modelbuf, fieldbuf, the resolved table pointer and the withModel
flag. -/
structure ConvSt where
  phase : ConvPhase
  sqlbuf : List Char
  modelbuf : List Char
  fieldbuf : List Char
  table : Option Table
  withModel : Bool
deriving DecidableEq

/-- The two error shapes produced by modelTable and writeField
(errors.Newf with the offending names). -/
inductive ConvError
  | unknownModel (model : String)
  | unknownField (field model : String)
deriving DecidableEq

/-- One step of the conv scanner on a single character, transcribing the
switch statement of Visitor.conv together with the bodies of writeModel,
modelTable and writeField.  The table-is-none branch in PARSING_FIELD is
unreachable from the initial state (the transition into PARSING_FIELD
always sets the table). -/
def convStep (v : Visitor) (st : ConvSt) (c : Char) : Except ConvError ConvSt :=
  match st.phase with
  | .INIT =>
    if c = '{' then
      .ok { st with phase := .PARSING_MODEL, withModel := false,
                    modelbuf := [], fieldbuf := [] }
    else
      .ok { st with sqlbuf := st.sqlbuf ++ [c] }
  | .PARSING_MODEL =>
    if c = '}' then
      match v.lookupModel ⟨st.modelbuf⟩ with
      | none => .error (.unknownModel ⟨st.modelbuf⟩)
      | some t => .ok { st with sqlbuf := st.sqlbuf ++ t.Name.data, phase := .INIT }
    else if c = '.' || c = ':' then
      match v.lookupModel ⟨st.modelbuf⟩ with
      | none => .error (.unknownModel ⟨st.modelbuf⟩)
      | some t =>
        .ok { st with table := some t,
                      withModel := (if c = '.' then true else st.withModel),
                      phase := .PARSING_FIELD }
    else
      .ok { st with modelbuf := st.modelbuf ++ [c] }
  | .PARSING_FIELD =>
    if c = ',' || c = '}' then
      match st.table with
      | none => .error (.unknownField ⟨st.fieldbuf⟩ ⟨st.modelbuf⟩)
      | some t =>
        match t.fieldsGet ⟨st.fieldbuf⟩ with
        | none => .error (.unknownField ⟨st.fieldbuf⟩ ⟨st.modelbuf⟩)
        | some col =>
          let sb := st.sqlbuf ++ (if st.withModel then t.Name.data ++ ['.'] else []) ++ col.data
          if c = '}' then
            .ok { st with sqlbuf := sb, fieldbuf := [], phase := .INIT }
          else
            .ok { st with sqlbuf := sb ++ [','], fieldbuf := [] }
    else if c = ' ' then
      .ok { st with sqlbuf := st.sqlbuf ++ [' '] }
    else
      .ok { st with fieldbuf := st.fieldbuf ++ [c] }

/-- The main loop of Visitor.conv over the remaining characters; an error
aborts the scan immediately (the Go code returns from inside the loop). -/
def convRun (v : Visitor) : ConvSt → List Char → Except ConvError ConvSt
  | st, [] => .ok st
  | st, c :: cs =>
    match convStep v st c with
    | .error e => .error e
    | .ok st2 => convRun v st2 cs

/-- The initial scan state: INIT phase, all buffers empty, no table. -/
def initConvSt : ConvSt := ⟨.INIT, [], [], [], none, false⟩

/-- Visitor.conv: resolve a whole template.  Mirrors the named return
values of Go: on an error the string result is the zero value "", on
success it is sqlbuf.String() and the error is nil. -/
def conv (v : Visitor) (sql : String) : String × Option ConvError :=
  match convRun v initConvSt sql.data with
  | .error e => ("", some e)
  | .ok st => (⟨st.sqlbuf⟩, none)

/-- Boolean test for characters that the PARSING_MODEL phase simply
accumulates into modelbuf (everything except the three dispatch bytes). -/
def isModelChar (c : Char) : Bool :=
  (c != '}') && (c != '.') && (c != ':')

/-- Boolean test for characters that the PARSING_FIELD phase simply
accumulates into fieldbuf (everything except comma, closing brace, space). -/
def isFieldChar (c : Char) : Bool :=
  (c != ',') && (c != '}') && (c != ' ')

/- ----------------------------------------------------------------- -/
/- Statement cache (cache.go)                                        -/
/- ----------------------------------------------------------------- -/

/-- The Preparer interface: compiling SQL text either yields a statement
handle or an error (Go: Prepare(sql string) (*sql.Stmt, error)). -/
def Preparer := String → Except String Nat

/-- cacheItem: the sql text together with its prepared statement. -/
structure CacheItem where
  sql : String
  stmt : Nat
deriving DecidableEq

/-- One per-type table, Go map[uint]cacheItem. -/
def CacheMap := Nat → Option CacheItem

/-- The empty map a fresh category starts with. -/
def emptyCacheMap : CacheMap := fun _ => none

/-- Map update, Go m[id] = item. -/
def cacheMapInsert (m : CacheMap) (id : Nat) (item : CacheItem) : CacheMap :=
  fun k => if k = id then some item else m k

/-- Cacher: the slice of per-type id tables (Go: cache []map[uint]cacheItem). -/
structure Cacher where
  cache : List CacheMap

/-- NewCacher: allocate the given number of empty category tables. -/
def newCacher (types : Nat) : Cacher :=
  ⟨List.replicate types emptyCacheMap⟩

/-- The category table for a type index (Go: c.cache[typ]; callers must
keep typ below the configured count, the Go code panics otherwise). -/
def Cacher.mapAt (c : Cacher) (typ : Nat) : CacheMap :=
  c.cache.getD typ emptyCacheMap

/-- Cacher.ExtendType: grow by appending fresh empty tables or shrink by
truncating the slice; the returned number is typ - 1 in both branches. -/
def Cacher.extendType (c : Cacher) (typ : Nat) : Cacher × Nat :=
  if typ > c.cache.length then
    (⟨c.cache ++ List.replicate (typ - c.cache.length) emptyCacheMap⟩, typ - 1)
  else
    (⟨c.cache.take typ⟩, typ - 1)

/-- Cacher.Types: the configured category count. -/
def Cacher.types (c : Cacher) : Nat := c.cache.length

/-- Everything one StmtById invocation produces: the statement-or-error
result, the cacher after the call, the sqlPrinter events emitted, and how
many times the create callback ran. -/
structure StmtByIdResult where
  res : Except String Nat
  cacher : Cacher
  prints : List (Bool × String)
  builds : Nat

/-- Cacher.StmtById: a hit prints (true, cached sql) and returns the
cached statement; a miss builds the sql, prints (false, sql), prepares it
and caches the entry only when preparation succeeds. -/
def Cacher.stmtById (c : Cacher) (p : Preparer) (typ id : Nat)
    (create : Unit → String) : StmtByIdResult :=
  match (c.mapAt typ) id with
  | some item => ⟨.ok item.stmt, c, [(true, item.sql)], 0⟩
  | none =>
    let sqlNew := create ()
    match p sqlNew with
    | .error e => ⟨.error e, c, [(false, sqlNew)], 1⟩
    | .ok stmt =>
      ⟨.ok stmt,
       ⟨c.cache.set typ (cacheMapInsert (c.mapAt typ) id ⟨sqlNew, stmt⟩)⟩,
       [(false, sqlNew)], 1⟩

/-- Everything one SetStmt invocation produces.  Note the Go body contains
no sqlPrinter call, so the prints component is always empty. -/
structure SetStmtResult where
  res : Except String Nat
  cacher : Cacher
  prints : List (Bool × String)

/-- Cacher.SetStmt: prepare the given sql and cache it, overwriting any
existing entry; on a preparation error nothing is stored. -/
def Cacher.setStmt (c : Cacher) (p : Preparer) (typ id : Nat) (sql : String) :
    SetStmtResult :=
  match p sql with
  | .error e => ⟨.error e, c, []⟩
  | .ok stmt =>
    ⟨.ok stmt, ⟨c.cache.set typ (cacheMapInsert (c.mapAt typ) id ⟨sql, stmt⟩)⟩, []⟩

/-- Cacher.PrepareStmt: re-prepare the cached sql text of an entry without
touching the cache; a missing entry yields ("", nil, nil).  The first
component models the (string, *sql.Stmt, error) triple, the second is the
cacher after the call. -/
def Cacher.prepareStmt (c : Cacher) (p : Preparer) (typ id : Nat) :
    (String × Option Nat × Option String) × Cacher :=
  match (c.mapAt typ) id with
  | none => (("", none, none), c)
  | some item =>
    match p item.sql with
    | .ok stmt => ((item.sql, some stmt, none), c)
    | .error e => ((item.sql, none, some e), c)

/- ----------------------------------------------------------------- -/
/- Field mask protocol (generated Vals and Ptrs of each model)       -/
/- ----------------------------------------------------------------- -/

variable {α : Type}

/-- The generated all-columns mask: 1 shifted by the field count, minus
one (Go: fieldsAll = 1 << fieldEnd - 1). -/
def fieldsAll (n : Nat) : Nat := 2 ^ n - 1

/-- The generated else-branch of Vals: walk the declared columns, testing
fields & (1 << bit) for each, writing the selected value at the next free
destination index.  The result lists the (index, value) assignments the
Go code performs on the destination slice. -/
def valsLoop (fields : Nat) : Nat → Nat → List α → List (Nat × α)
  | _, _, [] => []
  | bit, idx, v :: rest =>
    if fields &&& 2 ^ bit ≠ 0 then
      (idx, v) :: valsLoop fields (bit + 1) (idx + 1) rest
    else
      valsLoop fields (bit + 1) idx rest

/-- The generated Vals method: a model instance is abstracted as the list
of its column values in declared order; the result is the list of
(destination index, value) writes. -/
def Vals (fields : Nat) (row : List α) : List (Nat × α) :=
  if fields ≠ 0 then
    if fields = fieldsAll row.length then List.enumFrom 0 row
    else valsLoop fields 0 0 row
  else []

/-- The generated else-branch of Ptrs, identical in shape to valsLoop but
writing the column references (abstracted here as the elements of the
given reference list). -/
def ptrsLoop (fields : Nat) : Nat → Nat → List α → List (Nat × α)
  | _, _, [] => []
  | bit, idx, v :: rest =>
    if fields &&& 2 ^ bit ≠ 0 then
      (idx, v) :: ptrsLoop fields (bit + 1) (idx + 1) rest
    else
      ptrsLoop fields (bit + 1) idx rest

/-- The generated Ptrs method over the list of column references. -/
def Ptrs (fields : Nat) (row : List α) : List (Nat × α) :=
  if fields ≠ 0 then
    if fields = fieldsAll row.length then List.enumFrom 0 row
    else ptrsLoop fields 0 0 row
  else []

/-- Renumber a list of pending writes with consecutive destination indices
starting at i. -/
def reindex : Nat → List (Nat × α) → List (Nat × α)
  | _, [] => []
  | i, p :: rest => (i, p.2) :: reindex (i + 1) rest

/-- The canonical description of a mask-directed extraction: keep the
declared columns whose bit is set, in declared order, and assign them the
destination indices 0, 1, 2, ... -/
def canonicalWrites (fields : Nat) (row : List α) : List (Nat × α) :=
  reindex 0 ((List.enumFrom 0 row).filter (fun p => fields.testBit p.1))

/- ----------------------------------------------------------------- -/
/- Concrete instances used by the witnesses                          -/
/- ----------------------------------------------------------------- -/

/-- The users table of the worked example: User maps to users, Id to id,
Name to name. -/
def userTable : Table := ⟨"users", [("Id", "id"), ("Name", "name")]⟩

/-- The registry of the worked example. -/
def userVisitor : Visitor := ⟨[("User", userTable)]⟩

/-- A preparer that compiles every sql text to the handle 42. -/
def pOk : Preparer := fun _ => .ok 42

/-- A preparer that rejects every sql text. -/
def pBad : Preparer := fun _ => .error "compile failed"

/-- A builder used by the witnesses. -/
def crNew : Unit → String := fun _ => "DELETE FROM users"

/-- A one-category cacher holding one entry, used by the witnesses. -/
def cHit : Cacher := ⟨[cacheMapInsert emptyCacheMap 4 ⟨"SELECT 1", 42⟩]⟩

/-- A two-category cacher holding one entry, used by the witnesses. -/
def cTwo : Cacher := ⟨[cacheMapInsert emptyCacheMap 5 ⟨"Q", 9⟩, emptyCacheMap]⟩

/- ----------------------------------------------------------------- -/
/- List helper lemmas                                                -/
/- ----------------------------------------------------------------- -/

theorem listGetDSet {A : Type} :
    ∀ (l : List A) (i : Nat) (a d : A), i < l.length →
      (l.set i a).getD i d = a := by
  intro l
  induction l with
  | nil => intro i a d h; simp at h
  | cons x xs ih =>
    intro i a d h
    cases i with
    | zero => rfl
    | succ j =>
      simp only [List.set, List.getD, List.getElem?_cons_succ]
      have := ih j a d (by simpa using Nat.lt_of_succ_lt_succ h)
      simpa [List.getD] using this

theorem listGetDTake {A : Type} :
    ∀ (l : List A) (m i : Nat) (d : A), i < m →
      (l.take m).getD i d = l.getD i d := by
  intro l
  induction l with
  | nil => intro m i d _; simp
  | cons x xs ih =>
    intro m i d h
    cases m with
    | zero => exact absurd h (Nat.not_lt_zero i)
    | succ m2 =>
      cases i with
      | zero => rfl
      | succ j =>
        simp only [List.take, List.getD, List.getElem?_cons_succ]
        have := ih m2 j d (Nat.lt_of_succ_lt_succ h)
        simpa [List.getD] using this


/- ----------------------------------------------------------------- -/
/- Cache claims                                                      -/
/- ----------------------------------------------------------------- -/

/-- C2: when preparation of the built sql fails, StmtById returns the
error, leaves the cache unchanged and emits one miss print; a subsequent
StmtById call on the resulting cacher invokes the builder again; SetStmt
with a failing preparer likewise returns the error and stores nothing. -/
theorem claim2_compile_failure_not_cached (p : Preparer) (c : Cacher)
    (typ id : Nat) (create : Unit → String) (e : String)
    (hrange : typ < c.cache.length)
    (hmiss : (c.mapAt typ) id = none)
    (herr : p (create ()) = .error e) :
    c.stmtById p typ id create = ⟨.error e, c, [(false, create ())], 1⟩ ∧
    (∀ (p2 : Preparer) (create2 : Unit → String),
      ((c.stmtById p typ id create).cacher.stmtById p2 typ id create2).builds = 1) ∧
    (∀ (sql e2 : String), p sql = .error e2 →
      c.setStmt p typ id sql = ⟨.error e2, c, []⟩) := by
  have hfirst : c.stmtById p typ id create = ⟨.error e, c, [(false, create ())], 1⟩ := by
    simp [Cacher.stmtById, hmiss, herr]
  refine ⟨hfirst, ?_, ?_⟩
  · intro p2 create2
    rw [hfirst]
    cases h2 : p2 (create2 ()) <;> simp [Cacher.stmtById, hmiss, h2]
  · intro sql e2 he2
    simp [Cacher.setStmt, he2]

/-- C2 witness: a concrete failing preparation on an empty cacher. -/
theorem claim2_compile_failure_not_cached_witness :
    ((newCacher 6).stmtById pBad 1 3 crNew =
      ⟨.error "compile failed", newCacher 6, [(false, crNew ())], 1⟩) ∧
    (∀ (p2 : Preparer) (create2 : Unit → String),
      (((newCacher 6).stmtById pBad 1 3 crNew).cacher.stmtById p2 1 3 create2).builds = 1) ∧
    (∀ (sql e2 : String), pBad sql = .error e2 →
      (newCacher 6).setStmt pBad 1 3 sql = ⟨.error e2, newCacher 6, []⟩) :=
  claim2_compile_failure_not_cached pBad (newCacher 6) 1 3 crNew
    "compile failed" (by decide) rfl rfl

/-- C5: when a StmtById call succeeds, the resulting cacher holds an entry
for the key with the returned statement, and every subsequent StmtById
call with the same key (any preparer, any builder) is a hit that returns
the identical statement, leaves the cacher unchanged, prints the cached
sql as a hit, and never invokes its builder. -/
theorem claim5_repeat_hit (p : Preparer) (c : Cacher) (typ id : Nat)
    (create : Unit → String) (stmt : Nat)
    (hrange : typ < c.cache.length)
    (hok : (c.stmtById p typ id create).res = .ok stmt) :
    ∃ s, ((c.stmtById p typ id create).cacher.mapAt typ) id = some ⟨s, stmt⟩ ∧
      ∀ (p2 : Preparer) (create2 : Unit → String),
        (c.stmtById p typ id create).cacher.stmtById p2 typ id create2 =
          ⟨.ok stmt, (c.stmtById p typ id create).cacher, [(true, s)], 0⟩ := by
  cases hfind : (c.mapAt typ) id with
  | some item =>
    have hres : c.stmtById p typ id create = ⟨.ok item.stmt, c, [(true, item.sql)], 0⟩ := by
      simp [Cacher.stmtById, hfind]
    have hstmt : item.stmt = stmt := by
      rw [hres] at hok
      simpa using hok
    refine ⟨item.sql, ?_, ?_⟩
    · rw [hres]
      simpa [← hstmt] using hfind
    · intro p2 create2
      rw [hres]
      simp [Cacher.stmtById, hfind, hstmt]
  | none =>
    cases hprep : p (create ()) with
    | error e =>
      have : (c.stmtById p typ id create).res = .error e := by
        simp [Cacher.stmtById, hfind, hprep]
      rw [this] at hok
      exact absurd hok (by simp)
    | ok stmt0 =>
      have hres : c.stmtById p typ id create =
          ⟨.ok stmt0,
           ⟨c.cache.set typ (cacheMapInsert (c.mapAt typ) id ⟨create (), stmt0⟩)⟩,
           [(false, create ())], 1⟩ := by
        simp [Cacher.stmtById, hfind, hprep]
      have hstmt : stmt0 = stmt := by
        rw [hres] at hok
        simpa using hok
      have hmap2 : (((⟨c.cache.set typ
          (cacheMapInsert (c.mapAt typ) id ⟨create (), stmt0⟩)⟩ : Cacher).mapAt typ)) id =
          some ⟨create (), stmt⟩ := by
        show ((c.cache.set typ
          (cacheMapInsert (c.mapAt typ) id ⟨create (), stmt0⟩)).getD typ emptyCacheMap) id =
          some ⟨create (), stmt⟩
        rw [listGetDSet _ _ _ _ hrange]
        simp [cacheMapInsert, hstmt]
      have hmap : ((c.stmtById p typ id create).cacher.mapAt typ) id =
          some ⟨create (), stmt⟩ := by
        rw [hres]
        exact hmap2
      refine ⟨create (), hmap, ?_⟩
      intro p2 create2
      rw [hres]
      simp [Cacher.stmtById, hmap2]

/-- C5 witness: a preloaded entry is reliably re-served. -/
theorem claim5_repeat_hit_witness :
    ∃ s, ((cHit.stmtById pOk 0 4 crNew).cacher.mapAt 0) 4 = some ⟨s, 42⟩ ∧
      ∀ (p2 : Preparer) (create2 : Unit → String),
        (cHit.stmtById pOk 0 4 crNew).cacher.stmtById p2 0 4 create2 =
          ⟨.ok 42, (cHit.stmtById pOk 0 4 crNew).cacher, [(true, s)], 0⟩ :=
  claim5_repeat_hit pOk cHit 0 4 crNew 42 (by decide) rfl

/-- C6 counterexample: a SetStmt invocation emits zero sqlPrinter events,
not one, refuting the claim that every SetStmt call reaches the hook. -/
theorem claim6_setstmt_no_hook_cex :
    ¬ (((newCacher 6).setStmt pOk 0 1 "INSERT INTO users VALUES(?)").prints.length = 1) := by
  decide

/-- C6 (amended): every StmtById invocation emits exactly one hook event,
a (fromCache, sql) pair; SetStmt invocations emit none. -/
theorem claim6_hook_calls (p : Preparer) (c : Cacher) (typ id : Nat)
    (create : Unit → String) (hrange : typ < c.cache.length) :
    (∃ b s, (c.stmtById p typ id create).prints = [(b, s)]) ∧
    (∀ sql, (c.setStmt p typ id sql).prints = []) := by
  constructor
  · cases hfind : (c.mapAt typ) id with
    | some item => exact ⟨true, item.sql, by simp [Cacher.stmtById, hfind]⟩
    | none =>
      cases hprep : p (create ()) with
      | error e => exact ⟨false, create (), by simp [Cacher.stmtById, hfind, hprep]⟩
      | ok s0 => exact ⟨false, create (), by simp [Cacher.stmtById, hfind, hprep]⟩
  · intro sql
    cases hprep : p sql <;> simp [Cacher.setStmt, hprep]

/-- C6 witness: concrete hook-event counts on an empty cacher. -/
theorem claim6_hook_calls_witness :
    (∃ b s, ((newCacher 6).stmtById pOk 0 1 crNew).prints = [(b, s)]) ∧
    (∀ sql, ((newCacher 6).setStmt pOk 0 1 sql).prints = []) :=
  claim6_hook_calls pOk (newCacher 6) 0 1 crNew (by decide)

/-- C7: resizing to the current category count returns the cacher intact;
resizing to one more appends exactly one fresh empty category table;
shrinking truncates to the first m tables with their entries intact. -/
theorem claim7_extend_type_preserves (c : Cacher) :
    (c.extendType c.cache.length).1 = c ∧
    (c.extendType (c.cache.length + 1)).1.cache = c.cache ++ [emptyCacheMap] ∧
    (∀ m, m < c.cache.length →
      ((c.extendType m).1.cache.length = m ∧
       ∀ i, i < m → (c.extendType m).1.cache.getD i emptyCacheMap =
         c.cache.getD i emptyCacheMap)) := by
  refine ⟨?_, ?_, ?_⟩
  · simp [Cacher.extendType]
  · simp [Cacher.extendType]
  · intro m hm
    have hnot : ¬ (m > c.cache.length) := by omega
    constructor
    · simp [Cacher.extendType, hnot]
      omega
    · intro i hi
      simp only [Cacher.extendType, if_neg hnot]
      exact listGetDTake _ _ _ _ hi

/-- C7 witness: the resize laws at a concrete two-category cacher. -/
theorem claim7_extend_type_preserves_witness :
    ((cTwo.extendType 2).1 = cTwo) ∧
    ((cTwo.extendType 3).1.cache = cTwo.cache ++ [emptyCacheMap]) ∧
    ((cTwo.extendType 1).1.cache.length = 1 ∧
      ∀ i, i < 1 → (cTwo.extendType 1).1.cache.getD i emptyCacheMap =
        cTwo.cache.getD i emptyCacheMap) := by
  have h := claim7_extend_type_preserves cTwo
  exact ⟨h.1, h.2.1, h.2.2 1 (by decide)⟩

/-- C8: for an in-range category, PrepareStmt returns the cacher
unchanged (the freshly prepared handle is only handed to the caller),
and a missing entry yields the empty sql text, no statement and no
error. -/
theorem claim8_prepare_stmt_frame (p : Preparer) (c : Cacher) (typ id : Nat)
    (hrange : typ < c.cache.length) :
    (c.prepareStmt p typ id).2 = c ∧
    ((c.mapAt typ) id = none → (c.prepareStmt p typ id).1 = ("", none, none)) := by
  constructor
  · cases hfind : (c.mapAt typ) id with
    | none => simp [Cacher.prepareStmt, hfind]
    | some item => cases hp : p item.sql <;> simp [Cacher.prepareStmt, hfind, hp]
  · intro hmiss
    simp [Cacher.prepareStmt, hmiss]

/-- C8 witness: PrepareStmt at a missing key of a fresh cacher. -/
theorem claim8_prepare_stmt_frame_witness :
    (((newCacher 6).prepareStmt pBad 2 7).2 = newCacher 6) ∧
    (((newCacher 6).prepareStmt pBad 2 7).1 = ("", none, none)) := by
  have h := claim8_prepare_stmt_frame pBad (newCacher 6) 2 7 (by decide)
  exact ⟨h.1, h.2 rfl⟩

/-- C10: ExtendType returns typ - 1, the index of the last category after
the resize, in the growing and in the shrinking branch alike. -/
theorem claim10_extend_type_result (c : Cacher) (typ : Nat) (h : 1 ≤ typ) :
    (c.extendType typ).2 = typ - 1 := by
  unfold Cacher.extendType
  split <;> rfl

/-- C10 witness: a growing and a shrinking resize of a six-category
cacher. -/
theorem claim10_extend_type_result_witness :
    ((newCacher 6).extendType 9).2 = 8 ∧ ((newCacher 6).extendType 2).2 = 1 :=
  ⟨claim10_extend_type_result (newCacher 6) 9 (by decide),
   claim10_extend_type_result (newCacher 6) 2 (by decide)⟩

/- ----------------------------------------------------------------- -/
/- Field mask claims                                                 -/
/- ----------------------------------------------------------------- -/

theorem andTwoPowNeZero (fields bit : Nat) :
    (fields &&& 2 ^ bit ≠ 0) ↔ fields.testBit bit = true := by
  rw [Nat.and_two_pow]
  cases h : fields.testBit bit
  · simp
  · simpa using (Nat.two_pow_pos bit).ne'

theorem valsLoopCanonical {α : Type} (fields : Nat) :
    ∀ (row : List α) (bit idx : Nat),
      valsLoop fields bit idx row =
        reindex idx ((List.enumFrom bit row).filter (fun p => fields.testBit p.1)) := by
  intro row
  induction row with
  | nil => intro bit idx; rfl
  | cons v rest ih =>
    intro bit idx
    by_cases h : fields &&& 2 ^ bit ≠ 0
    · have hbit : fields.testBit bit = true := (andTwoPowNeZero fields bit).mp h
      simp only [valsLoop, if_pos h, List.enumFrom_cons, ih]
      simp [List.filter_cons, hbit, reindex]
    · have hbit : fields.testBit bit = false := by
        cases hb : fields.testBit bit
        · rfl
        · exact absurd ((andTwoPowNeZero fields bit).mpr hb) h
      simp only [valsLoop, if_neg h, List.enumFrom_cons, ih]
      simp [List.filter_cons, hbit]

theorem ptrsLoopEqValsLoop {α : Type} (fields : Nat) :
    ∀ (row : List α) (bit idx : Nat),
      ptrsLoop fields bit idx row = valsLoop fields bit idx row := by
  intro row
  induction row with
  | nil => intro bit idx; rfl
  | cons v rest ih =>
    intro bit idx
    by_cases h : fields &&& 2 ^ bit ≠ 0
    · simp only [ptrsLoop, valsLoop, if_pos h, ih]
    · simp only [ptrsLoop, valsLoop, if_neg h, ih]

theorem reindexEnumFrom {α : Type} :
    ∀ (l : List α) (b : Nat), reindex b (List.enumFrom b l) = List.enumFrom b l := by
  intro l
  induction l with
  | nil => intro b; rfl
  | cons v rest ih =>
    intro b
    simp only [List.enumFrom_cons, reindex, ih]

theorem enumFromFstLt {α : Type} :
    ∀ (l : List α) (b : Nat) (p : Nat × α), p ∈ List.enumFrom b l →
      p.1 < b + l.length := by
  intro l
  induction l with
  | nil => intro b p hp; simp at hp
  | cons v rest ih =>
    intro b p hp
    simp only [List.enumFrom_cons, List.mem_cons] at hp
    cases hp with
    | inl h => subst h; simp
    | inr h =>
      have := ih (b + 1) p h
      simp only [List.length_cons]
      omega

theorem filterAllBits {α : Type} :
    ∀ (l : List α) (b n : Nat), b + l.length ≤ n →
      (List.enumFrom b l).filter (fun p => (2 ^ n - 1).testBit p.1) =
        List.enumFrom b l := by
  intro l
  induction l with
  | nil => intro b n _; rfl
  | cons v rest ih =>
    intro b n h
    have hlen : b + (rest.length + 1) ≤ n := by simpa using h
    have hb : b < n := by omega
    have hrest : b + 1 + rest.length ≤ n := by omega
    simp only [List.enumFrom_cons]
    simp only [List.filter_cons, Nat.testBit_two_pow_sub_one]
    simp [hb, ih (b + 1) n hrest]
    intro a b2 hmem
    have := enumFromFstLt rest (b + 1) (a, b2) hmem
    simp at this
    omega

/-- C3: the generated Vals and Ptrs both perform exactly the canonical
writes: the selected columns in declared (ascending bit) order, assigned
to consecutive destination indices from zero, for every mask and row —
so the index assignment is a function of the mask's set bits alone — and
the zero mask writes nothing. -/
theorem claim3_vals_ptrs_order {α : Type} (fields : Nat) (row : List α) :
    Vals fields row = canonicalWrites fields row ∧
    Ptrs fields row = canonicalWrites fields row ∧
    Vals 0 row = ([] : List (Nat × α)) ∧
    Ptrs 0 row = ([] : List (Nat × α)) := by
  have hvals : ∀ (f : Nat), Vals f row = canonicalWrites f row := by
    intro f
    by_cases h0 : f = 0
    · subst h0
      simp [Vals, canonicalWrites, Nat.zero_testBit, reindex]
    · by_cases hall : f = fieldsAll row.length
      · subst hall
        rw [show Vals (fieldsAll row.length) row = List.enumFrom 0 row from by
          simp [Vals, h0]]
        unfold canonicalWrites fieldsAll
        rw [filterAllBits row 0 row.length (by simp)]
        exact (reindexEnumFrom row 0).symm
      · rw [show Vals f row = valsLoop f 0 0 row from by simp [Vals, h0, hall]]
        exact valsLoopCanonical f row 0 0
  have hptrs : ∀ (f : Nat), Ptrs f row = Vals f row := by
    intro f
    simp only [Ptrs, Vals, ptrsLoopEqValsLoop]
  exact ⟨hvals fields, (hptrs fields).trans (hvals fields),
    by simp [Vals], by simp [Ptrs]⟩

/- ----------------------------------------------------------------- -/
/- Resolver scan lemmas                                              -/
/- ----------------------------------------------------------------- -/

theorem convRunAppend (v : Visitor) :
    ∀ (xs ys : List Char) (st : ConvSt),
      convRun v st (xs ++ ys) =
        match convRun v st xs with
        | .error e => .error e
        | .ok st2 => convRun v st2 ys := by
  intro xs
  induction xs with
  | nil => intro ys st; rfl
  | cons c cs ih =>
    intro ys st
    simp only [List.cons_append, convRun]
    cases convStep v st c with
    | error e => rfl
    | ok st2 => exact ih ys st2

theorem convRunModelAccum (v : Visitor) :
    ∀ (m : List Char) (st : ConvSt), st.phase = .PARSING_MODEL →
      m.all isModelChar = true →
      convRun v st m = .ok { st with modelbuf := st.modelbuf ++ m } := by
  intro m
  induction m with
  | nil =>
    intro st _ _
    rw [List.append_nil]
    rfl
  | cons c cs ih =>
    intro st hph hall
    simp only [List.all_cons, Bool.and_eq_true] at hall
    obtain ⟨hc, hcs⟩ := hall
    simp only [isModelChar, Bool.and_eq_true, bne_iff_ne, ne_eq] at hc
    obtain ⟨⟨h1, h2⟩, h3⟩ := hc
    obtain ⟨ph, sb, mb, fb, tb, wm⟩ := st
    simp only at hph
    subst hph
    simp only [convRun, convStep]
    rw [if_neg h1]
    rw [if_neg (by simp [h2, h3])]
    have hrec := ih ⟨.PARSING_MODEL, sb, mb ++ [c], fb, tb, wm⟩ rfl hcs
    simp [hrec]

theorem convRunFieldAccum (v : Visitor) :
    ∀ (f : List Char) (st : ConvSt), st.phase = .PARSING_FIELD →
      f.all isFieldChar = true →
      convRun v st f = .ok { st with fieldbuf := st.fieldbuf ++ f } := by
  intro f
  induction f with
  | nil =>
    intro st _ _
    rw [List.append_nil]
    rfl
  | cons c cs ih =>
    intro st hph hall
    simp only [List.all_cons, Bool.and_eq_true] at hall
    obtain ⟨hc, hcs⟩ := hall
    simp only [isFieldChar, Bool.and_eq_true, bne_iff_ne, ne_eq] at hc
    obtain ⟨⟨h1, h2⟩, h3⟩ := hc
    obtain ⟨ph, sb, mb, fb, tb, wm⟩ := st
    simp only at hph
    subst hph
    simp only [convRun, convStep]
    rw [if_neg (by simp [h1, h2])]
    rw [if_neg h3]
    have hrec := ih ⟨.PARSING_FIELD, sb, mb, fb ++ [c], tb, wm⟩ rfl hcs
    simp [hrec]

/- ----------------------------------------------------------------- -/
/- Resolver claims                                                   -/
/- ----------------------------------------------------------------- -/

/-- C1: the worked template resolves exactly as specified, and in general
a bare placeholder emits the model's table name, a colon placeholder
emits the unqualified column names, a dot placeholder emits the
table-qualified column names, and the space after the comma is preserved
verbatim. -/
theorem claim1_template_resolution :
    (conv userVisitor "SELECT {User.Id, Name} FROM {User} WHERE {User:Id} = ?" =
      ("SELECT users.id, users.name FROM users WHERE id = ?", none)) ∧
    (∀ (v : Visitor) (m : List Char) (t : Table),
      v.lookupModel ⟨m⟩ = some t → m.all isModelChar = true →
      conv v ⟨'{' :: (m ++ ['}'])⟩ = (t.Name, none)) ∧
    (∀ (v : Visitor) (m f1 f2 : List Char) (t : Table) (c1 c2 : String),
      v.lookupModel ⟨m⟩ = some t →
      t.fieldsGet ⟨f1⟩ = some c1 → t.fieldsGet ⟨f2⟩ = some c2 →
      m.all isModelChar = true → f1.all isFieldChar = true →
      f2.all isFieldChar = true →
      conv v ⟨'{' :: (m ++ ':' :: (f1 ++ ',' :: ' ' :: (f2 ++ ['}'])))⟩ =
        (⟨c1.data ++ ',' :: ' ' :: c2.data⟩, none)) ∧
    (∀ (v : Visitor) (m f1 f2 : List Char) (t : Table) (c1 c2 : String),
      v.lookupModel ⟨m⟩ = some t →
      t.fieldsGet ⟨f1⟩ = some c1 → t.fieldsGet ⟨f2⟩ = some c2 →
      m.all isModelChar = true → f1.all isFieldChar = true →
      f2.all isFieldChar = true →
      conv v ⟨'{' :: (m ++ '.' :: (f1 ++ ',' :: ' ' :: (f2 ++ ['}'])))⟩ =
        (⟨t.Name.data ++ '.' :: c1.data ++ ',' :: ' ' ::
          (t.Name.data ++ '.' :: c2.data)⟩, none)) := by
  refine ⟨by decide, ?_, ?_, ?_⟩
  · intro v m t hlook hm
    have hrunm : convRun v ⟨.PARSING_MODEL, [], [], [], none, false⟩ m =
        .ok ⟨.PARSING_MODEL, [], m, [], none, false⟩ := by
      simpa using convRunModelAccum v m ⟨.PARSING_MODEL, [], [], [], none, false⟩ rfl hm
    have hrun : convRun v initConvSt ('{' :: (m ++ ['}'])) =
        .ok ⟨.INIT, t.Name.data, m, [], none, false⟩ := by
      rw [show convRun v initConvSt ('{' :: (m ++ ['}'])) =
          convRun v ⟨.PARSING_MODEL, [], [], [], none, false⟩ (m ++ ['}']) from rfl]
      rw [convRunAppend, hrunm]
      show convRun v ⟨.PARSING_MODEL, [], m, [], none, false⟩ ['}'] = _
      simp only [convRun, convStep]
      simp [hlook]
    simp only [conv]
    rw [hrun]
  · intro v m f1 f2 t c1 c2 hlook hc1 hc2 hm hf1 hf2
    have hrunm : convRun v ⟨.PARSING_MODEL, [], [], [], none, false⟩ m =
        .ok ⟨.PARSING_MODEL, [], m, [], none, false⟩ := by
      simpa using convRunModelAccum v m ⟨.PARSING_MODEL, [], [], [], none, false⟩ rfl hm
    have hstepColon : convStep v ⟨.PARSING_MODEL, [], m, [], none, false⟩ ':' =
        .ok ⟨.PARSING_FIELD, [], m, [], some t, false⟩ := by
      simp [convStep, hlook]
    have haccF1 : convRun v ⟨.PARSING_FIELD, [], m, [], some t, false⟩ f1 =
        .ok ⟨.PARSING_FIELD, [], m, f1, some t, false⟩ := by
      simpa using convRunFieldAccum v f1 ⟨.PARSING_FIELD, [], m, [], some t, false⟩ rfl hf1
    have hstepComma : convStep v ⟨.PARSING_FIELD, [], m, f1, some t, false⟩ ',' =
        .ok ⟨.PARSING_FIELD, c1.data ++ [','], m, [], some t, false⟩ := by
      simp [convStep, hc1]
    have hstepSpace : convStep v ⟨.PARSING_FIELD, c1.data ++ [','], m, [], some t, false⟩ ' ' =
        .ok ⟨.PARSING_FIELD, c1.data ++ [','] ++ [' '], m, [], some t, false⟩ := by
      simp [convStep]
    have haccF2 : convRun v ⟨.PARSING_FIELD, c1.data ++ [','] ++ [' '], m, [], some t, false⟩ f2 =
        .ok ⟨.PARSING_FIELD, c1.data ++ [','] ++ [' '], m, f2, some t, false⟩ := by
      simpa using convRunFieldAccum v f2
        ⟨.PARSING_FIELD, c1.data ++ [','] ++ [' '], m, [], some t, false⟩ rfl hf2
    have hstepEnd : convStep v ⟨.PARSING_FIELD, c1.data ++ [','] ++ [' '], m, f2, some t, false⟩ '}' =
        .ok ⟨.INIT, c1.data ++ [','] ++ [' '] ++ c2.data, m, [], some t, false⟩ := by
      simp [convStep, hc2]
    have hrun : convRun v initConvSt ('{' :: (m ++ ':' :: (f1 ++ ',' :: ' ' :: (f2 ++ ['}'])))) =
        .ok ⟨.INIT, c1.data ++ [','] ++ [' '] ++ c2.data, m, [], some t, false⟩ := by
      rw [show convRun v initConvSt ('{' :: (m ++ ':' :: (f1 ++ ',' :: ' ' :: (f2 ++ ['}'])))) =
          convRun v ⟨.PARSING_MODEL, [], [], [], none, false⟩
            (m ++ ':' :: (f1 ++ ',' :: ' ' :: (f2 ++ ['}']))) from rfl]
      rw [convRunAppend, hrunm]
      show convRun v ⟨.PARSING_MODEL, [], m, [], none, false⟩
        (':' :: (f1 ++ ',' :: ' ' :: (f2 ++ ['}']))) = _
      simp only [convRun, hstepColon]
      rw [convRunAppend, haccF1]
      show convRun v ⟨.PARSING_FIELD, [], m, f1, some t, false⟩
        (',' :: ' ' :: (f2 ++ ['}'])) = _
      simp only [convRun, hstepComma, hstepSpace]
      rw [convRunAppend, haccF2]
      show convRun v ⟨.PARSING_FIELD, c1.data ++ [','] ++ [' '], m, f2, some t, false⟩ ['}'] = _
      simp only [convRun, hstepEnd]
    simp only [conv]
    rw [hrun]
    simp
  · intro v m f1 f2 t c1 c2 hlook hc1 hc2 hm hf1 hf2
    have hrunm : convRun v ⟨.PARSING_MODEL, [], [], [], none, false⟩ m =
        .ok ⟨.PARSING_MODEL, [], m, [], none, false⟩ := by
      simpa using convRunModelAccum v m ⟨.PARSING_MODEL, [], [], [], none, false⟩ rfl hm
    have hstepDot : convStep v ⟨.PARSING_MODEL, [], m, [], none, false⟩ '.' =
        .ok ⟨.PARSING_FIELD, [], m, [], some t, true⟩ := by
      simp [convStep, hlook]
    have haccF1 : convRun v ⟨.PARSING_FIELD, [], m, [], some t, true⟩ f1 =
        .ok ⟨.PARSING_FIELD, [], m, f1, some t, true⟩ := by
      simpa using convRunFieldAccum v f1 ⟨.PARSING_FIELD, [], m, [], some t, true⟩ rfl hf1
    have hstepComma : convStep v ⟨.PARSING_FIELD, [], m, f1, some t, true⟩ ',' =
        .ok ⟨.PARSING_FIELD, t.Name.data ++ '.' :: c1.data ++ [','], m, [], some t, true⟩ := by
      simp [convStep, hc1]
    have hstepSpace : convStep v
        ⟨.PARSING_FIELD, t.Name.data ++ '.' :: c1.data ++ [','], m, [], some t, true⟩ ' ' =
        .ok ⟨.PARSING_FIELD, t.Name.data ++ '.' :: c1.data ++ [','] ++ [' '],
          m, [], some t, true⟩ := by
      simp [convStep]
    have haccF2 : convRun v
        ⟨.PARSING_FIELD, t.Name.data ++ '.' :: c1.data ++ [','] ++ [' '], m, [], some t, true⟩ f2 =
        .ok ⟨.PARSING_FIELD, t.Name.data ++ '.' :: c1.data ++ [','] ++ [' '],
          m, f2, some t, true⟩ := by
      simpa using convRunFieldAccum v f2
        ⟨.PARSING_FIELD, t.Name.data ++ '.' :: c1.data ++ [','] ++ [' '], m, [], some t, true⟩
        rfl hf2
    have hstepEnd : convStep v
        ⟨.PARSING_FIELD, t.Name.data ++ '.' :: c1.data ++ [','] ++ [' '], m, f2, some t, true⟩ '}' =
        .ok ⟨.INIT, t.Name.data ++ '.' :: c1.data ++ [','] ++ [' '] ++
          (t.Name.data ++ '.' :: c2.data), m, [], some t, true⟩ := by
      simp [convStep, hc2]
    have hrun : convRun v initConvSt ('{' :: (m ++ '.' :: (f1 ++ ',' :: ' ' :: (f2 ++ ['}'])))) =
        .ok ⟨.INIT, t.Name.data ++ '.' :: c1.data ++ [','] ++ [' '] ++
          (t.Name.data ++ '.' :: c2.data), m, [], some t, true⟩ := by
      rw [show convRun v initConvSt ('{' :: (m ++ '.' :: (f1 ++ ',' :: ' ' :: (f2 ++ ['}'])))) =
          convRun v ⟨.PARSING_MODEL, [], [], [], none, false⟩
            (m ++ '.' :: (f1 ++ ',' :: ' ' :: (f2 ++ ['}']))) from rfl]
      rw [convRunAppend, hrunm]
      show convRun v ⟨.PARSING_MODEL, [], m, [], none, false⟩
        ('.' :: (f1 ++ ',' :: ' ' :: (f2 ++ ['}']))) = _
      simp only [convRun, hstepDot]
      rw [convRunAppend, haccF1]
      show convRun v ⟨.PARSING_FIELD, [], m, f1, some t, true⟩
        (',' :: ' ' :: (f2 ++ ['}'])) = _
      simp only [convRun, hstepComma, hstepSpace]
      rw [convRunAppend, haccF2]
      show convRun v ⟨.PARSING_FIELD, t.Name.data ++ '.' :: c1.data ++ [','] ++ [' '],
        m, f2, some t, true⟩ ['}'] = _
      simp only [convRun, hstepEnd]
    simp only [conv]
    rw [hrun]
    simp

/-- C1 witness: the general placeholder laws instantiated at the User
registry, alongside the worked template. -/
theorem claim1_template_resolution_witness :
    (conv userVisitor "SELECT {User.Id, Name} FROM {User} WHERE {User:Id} = ?" =
      ("SELECT users.id, users.name FROM users WHERE id = ?", none)) ∧
    conv userVisitor ⟨'{' :: ("User".data ++ ['}'])⟩ = ("users", none) ∧
    conv userVisitor
      ⟨'{' :: ("User".data ++ ':' :: ("Id".data ++ ',' :: ' ' :: ("Name".data ++ ['}'])))⟩ =
      (⟨"id".data ++ ',' :: ' ' :: "name".data⟩, none) ∧
    conv userVisitor
      ⟨'{' :: ("User".data ++ '.' :: ("Id".data ++ ',' :: ' ' :: ("Name".data ++ ['}'])))⟩ =
      (⟨"users".data ++ '.' :: "id".data ++ ',' :: ' ' ::
        ("users".data ++ '.' :: "name".data)⟩, none) := by
  have h := claim1_template_resolution
  exact ⟨h.1,
    h.2.1 userVisitor "User".data userTable (by decide) (by decide),
    h.2.2.1 userVisitor "User".data "Id".data "Name".data userTable "id" "name"
      (by decide) (by decide) (by decide) (by decide) (by decide) (by decide),
    h.2.2.2 userVisitor "User".data "Id".data "Name".data userTable "id" "name"
      (by decide) (by decide) (by decide) (by decide) (by decide) (by decide)⟩

/-- C4: whenever conv reports an error the output string is empty (no
partial output survives), an unknown model aborts the whole template with
an error naming that model, and an unknown field on a known model aborts
with an error naming the field and model. -/
theorem claim4_unknown_name_aborts :
    (∀ (v : Visitor) (s : String) (e : ConvError),
      (conv v s).2 = some e → (conv v s).1 = "") ∧
    (∀ (v : Visitor) (pre : List Char) (st : ConvSt) (m rest : List Char),
      convRun v initConvSt pre = .ok st → st.phase = .INIT →
      m.all isModelChar = true → v.lookupModel ⟨m⟩ = none →
      conv v ⟨pre ++ '{' :: (m ++ '}' :: rest)⟩ =
        ("", some (.unknownModel ⟨m⟩))) ∧
    (∀ (v : Visitor) (pre : List Char) (st : ConvSt) (m f rest : List Char) (t : Table),
      convRun v initConvSt pre = .ok st → st.phase = .INIT →
      m.all isModelChar = true → f.all isFieldChar = true →
      v.lookupModel ⟨m⟩ = some t → t.fieldsGet ⟨f⟩ = none →
      conv v ⟨pre ++ '{' :: (m ++ ':' :: (f ++ '}' :: rest))⟩ =
        ("", some (.unknownField ⟨f⟩ ⟨m⟩))) := by
  refine ⟨?_, ?_, ?_⟩
  · intro v s e h
    cases hr : convRun v initConvSt s.data with
    | error e2 => simp [conv, hr]
    | ok st => simp [conv, hr] at h
  · intro v pre st m rest hpre hph hm hlook
    obtain ⟨ph, sb, mb, fb, tb, wm⟩ := st
    simp only at hph
    subst hph
    have hstepBrace : convStep v ⟨.INIT, sb, mb, fb, tb, wm⟩ '{' =
        .ok ⟨.PARSING_MODEL, sb, [], [], tb, false⟩ := by
      simp [convStep]
    have haccM : convRun v ⟨.PARSING_MODEL, sb, [], [], tb, false⟩ m =
        .ok ⟨.PARSING_MODEL, sb, m, [], tb, false⟩ := by
      simpa using convRunModelAccum v m ⟨.PARSING_MODEL, sb, [], [], tb, false⟩ rfl hm
    have hstepErr : convStep v ⟨.PARSING_MODEL, sb, m, [], tb, false⟩ '}' =
        .error (.unknownModel ⟨m⟩) := by
      simp [convStep, hlook]
    have hrun : convRun v initConvSt (pre ++ '{' :: (m ++ '}' :: rest)) =
        .error (.unknownModel ⟨m⟩) := by
      rw [convRunAppend, hpre]
      show convRun v ⟨.INIT, sb, mb, fb, tb, wm⟩ ('{' :: (m ++ '}' :: rest)) = _
      simp only [convRun, hstepBrace]
      rw [convRunAppend, haccM]
      show convRun v ⟨.PARSING_MODEL, sb, m, [], tb, false⟩ ('}' :: rest) = _
      simp only [convRun, hstepErr]
    simp only [conv]
    rw [hrun]
  · intro v pre st m f rest t hpre hph hm hf hlook hget
    obtain ⟨ph, sb, mb, fb, tb, wm⟩ := st
    simp only at hph
    subst hph
    have hstepBrace : convStep v ⟨.INIT, sb, mb, fb, tb, wm⟩ '{' =
        .ok ⟨.PARSING_MODEL, sb, [], [], tb, false⟩ := by
      simp [convStep]
    have haccM : convRun v ⟨.PARSING_MODEL, sb, [], [], tb, false⟩ m =
        .ok ⟨.PARSING_MODEL, sb, m, [], tb, false⟩ := by
      simpa using convRunModelAccum v m ⟨.PARSING_MODEL, sb, [], [], tb, false⟩ rfl hm
    have hstepColon : convStep v ⟨.PARSING_MODEL, sb, m, [], tb, false⟩ ':' =
        .ok ⟨.PARSING_FIELD, sb, m, [], some t, false⟩ := by
      simp [convStep, hlook]
    have haccF : convRun v ⟨.PARSING_FIELD, sb, m, [], some t, false⟩ f =
        .ok ⟨.PARSING_FIELD, sb, m, f, some t, false⟩ := by
      simpa using convRunFieldAccum v f ⟨.PARSING_FIELD, sb, m, [], some t, false⟩ rfl hf
    have hstepErr : convStep v ⟨.PARSING_FIELD, sb, m, f, some t, false⟩ '}' =
        .error (.unknownField ⟨f⟩ ⟨m⟩) := by
      simp [convStep, hget]
    have hrun : convRun v initConvSt (pre ++ '{' :: (m ++ ':' :: (f ++ '}' :: rest))) =
        .error (.unknownField ⟨f⟩ ⟨m⟩) := by
      rw [convRunAppend, hpre]
      show convRun v ⟨.INIT, sb, mb, fb, tb, wm⟩
        ('{' :: (m ++ ':' :: (f ++ '}' :: rest))) = _
      simp only [convRun, hstepBrace]
      rw [convRunAppend, haccM]
      show convRun v ⟨.PARSING_MODEL, sb, m, [], tb, false⟩
        (':' :: (f ++ '}' :: rest)) = _
      simp only [convRun, hstepColon]
      rw [convRunAppend, haccF]
      show convRun v ⟨.PARSING_FIELD, sb, m, f, some t, false⟩ ('}' :: rest) = _
      simp only [convRun, hstepErr]
    simp only [conv]
    rw [hrun]

/-- C4 witness: an unregistered model and an unknown field, each aborting
with an empty output and the offending name. -/
theorem claim4_unknown_name_aborts_witness :
    (conv userVisitor "{Ghost}").1 = "" ∧
    conv userVisitor ⟨"x ".data ++ '{' :: ("Ghost".data ++ '}' :: " y".data)⟩ =
      ("", some (.unknownModel ⟨"Ghost".data⟩)) ∧
    conv userVisitor ⟨[] ++ '{' :: ("User".data ++ ':' :: ("Qq".data ++ '}' :: []))⟩ =
      ("", some (.unknownField ⟨"Qq".data⟩ ⟨"User".data⟩)) := by
  have h := claim4_unknown_name_aborts
  exact ⟨h.1 userVisitor "{Ghost}" (.unknownModel "Ghost") (by decide),
    h.2.1 userVisitor "x ".data ⟨.INIT, "x ".data, [], [], none, false⟩
      "Ghost".data " y".data rfl rfl (by decide) (by decide),
    h.2.2 userVisitor [] initConvSt "User".data "Qq".data [] userTable
      rfl rfl (by decide) (by decide) (by decide) (by decide)⟩

/-- C9: a scan that completes in a non-INIT phase (an opening brace with
no matching closing brace) returns a nil error and the text emitted so
far; in particular appending an unterminated placeholder made of plain
name characters to a fully resolved prefix returns just the prefix
output, silently dropping the accumulated name. -/
theorem claim9_unterminated_placeholder :
    (∀ (v : Visitor) (s : String) (st : ConvSt),
      convRun v initConvSt s.data = .ok st → st.phase ≠ .INIT →
      conv v s = (⟨st.sqlbuf⟩, none)) ∧
    (∀ (v : Visitor) (pre : List Char) (st : ConvSt) (m : List Char),
      convRun v initConvSt pre = .ok st → st.phase = .INIT →
      m.all isModelChar = true →
      conv v ⟨pre ++ '{' :: m⟩ = (⟨st.sqlbuf⟩, none)) := by
  constructor
  · intro v s st hr _
    simp [conv, hr]
  · intro v pre st m hpre hph hm
    obtain ⟨ph, sb, mb, fb, tb, wm⟩ := st
    simp only at hph
    subst hph
    have hstepBrace : convStep v ⟨.INIT, sb, mb, fb, tb, wm⟩ '{' =
        .ok ⟨.PARSING_MODEL, sb, [], [], tb, false⟩ := by
      simp [convStep]
    have haccM : convRun v ⟨.PARSING_MODEL, sb, [], [], tb, false⟩ m =
        .ok ⟨.PARSING_MODEL, sb, m, [], tb, false⟩ := by
      simpa using convRunModelAccum v m ⟨.PARSING_MODEL, sb, [], [], tb, false⟩ rfl hm
    have hrun : convRun v initConvSt (pre ++ '{' :: m) =
        .ok ⟨.PARSING_MODEL, sb, m, [], tb, false⟩ := by
      rw [convRunAppend, hpre]
      show convRun v ⟨.INIT, sb, mb, fb, tb, wm⟩ ('{' :: m) = _
      simp only [convRun, hstepBrace]
      exact haccM
    simp only [conv]
    rw [hrun]

/-- C9 witness: two concrete unterminated templates, one ending inside a
field name and one inside a model name. -/
theorem claim9_unterminated_placeholder_witness :
    conv userVisitor "a \x7bUser:Id" = ("a ", none) ∧
    conv userVisitor ⟨"sel ".data ++ '{' :: "User".data⟩ = ("sel ", none) := by
  have h := claim9_unterminated_placeholder
  exact ⟨h.1 userVisitor "a \x7bUser:Id"
      ⟨.PARSING_FIELD, "a ".data, "User".data, "Id".data, some userTable, false⟩
      rfl (by decide),
    h.2 userVisitor "sel ".data ⟨.INIT, "sel ".data, [], [], none, false⟩
      "User".data rfl rfl (by decide)⟩
